import Mathlib

/-!
Verification development for the core LZMA decoder of this repository
(`src/decode/rangecoder.rs` and `src/decode/lzma.rs`).

The Rust code is shallowly embedded: `u32`/`u16` values become `Nat` with
explicit `% 2^32` where wrap-around matters, `&mut` state is passed and
returned explicitly, fallible operations return `Except Err`, and the
byte source behind `io::BufRead` is a `List Nat` of the remaining bytes
(the decoder is driven from `io::Cursor`-style single-chunk readers, so
`fill_buf` exposes the whole remainder).

The sliding-window output buffer (`LzBuffer`) is not part of the two
source files; it is modelled from the specification's output-window
contract, as documented on each of its operations.
-/

namespace LzmaSpec

set_option maxRecDepth 40000

/-- Error kinds of the decoder, following `error.rs`'s `LzmaError` variants
that the two embedded source files raise, plus `eof` for an `io` read
failure and `outOfFuel` for exhausting the explicit fuel of the driver
loop (the Rust loop has no fuel; all theorems stated about the driver are
fuel-independent or use a concrete sufficient fuel).  `panicked` models a
Rust `panic` (uninitialized decoder state / missing params). -/
inductive Err where
  | eof
  | panicked
  | eosFoundButMoreBytesAvailable
  | probabilitiesBufferTooSmall (needed : Nat) (available : Nat)
  | processedDataDoesNotMatchUnpackedSize (unpackedSize : Nat) (decompressedData : Nat)
  | invalidBackReference
  | outOfFuel
  deriving DecidableEq

/-- Boolean test for the error case of an `Except`. -/
def isErrB {ε α : Type} : Except ε α → Bool
  | .error _ => true
  | .ok _ => false

/-- The range decoder of `rangecoder.rs`: a byte stream plus the two
32-bit registers `range` and `code`. -/
structure RC where
  stream : List Nat
  range : Nat
  code : Nat
  deriving DecidableEq

/-- Reading one byte from the stream (`read_u8`); fails at end of input. -/
def readU8 (rc : RC) : Except Err Nat × RC :=
  match rc.stream with
  | [] => (.error .eof, rc)
  | b :: rest => (.ok b, { rc with stream := rest })

/-- `RangeDecoder::normalize`: whenever `range < 0x1000000`, shift `range`
left by 8 and shift `code` left by 8, XORing one fresh input byte into its
low byte.  The `range` shift happens before the read, as in the source. -/
def normalize (rc : RC) : Except Err Unit × RC :=
  if rc.range < 0x1000000 then
    let rc1 : RC := { rc with range := (rc.range <<< 8) % 4294967296 }
    let r := readU8 rc1
    match r.1 with
    | .error e => (.error e, r.2)
    | .ok b => (.ok (), { r.2 with code := ((rc.code <<< 8) % 4294967296) ^^^ b })
  else (.ok (), rc)

/-- `RangeDecoder::get_bit`: one non-adaptive (direct) bit. -/
def getBit (rc : RC) : Except Err Bool × RC :=
  let rc1 : RC := { rc with range := rc.range >>> 1 }
  let bit := rc1.range ≤ rc1.code
  let rc2 : RC := if bit then { rc1 with code := rc1.code - rc1.range } else rc1
  let n := normalize rc2
  (n.1.map fun _ => bit, n.2)

/-- `RangeDecoder::get`: `count` direct bits, MSB first, accumulated into a
`u32` by `result = (result << 1) ^ bit`. -/
def RC.get (rc : RC) (count : Nat) : Except Err Nat × RC :=
  go count 0 rc
where
  /-- loop of `RangeDecoder::get`. -/
  go : Nat → Nat → RC → Except Err Nat × RC
  | 0, result, rc => (.ok result, rc)
  | n + 1, result, rc =>
    let r := getBit rc
    match r.1 with
    | .error e => (.error e, r.2)
    | .ok bit => go n (((result <<< 1) % 4294967296) ^^^ (if bit then 1 else 0)) r.2

/-- `RangeDecoder::decode_bit`: one adaptive bit against probability cell
`prob`; returns the bit, the advanced decoder and the (possibly updated)
probability cell. -/
def decodeBit (rc : RC) (prob : Nat) (update : Bool) : Except Err Bool × RC × Nat :=
  let bound := ((rc.range >>> 11) * prob) % 4294967296
  if rc.code < bound then
    let prob' := if update then prob + ((0x800 - prob) >>> 5) else prob
    let n := normalize { rc with range := bound }
    (n.1.map fun _ => false, n.2, prob')
  else
    let prob' := if update then prob - (prob >>> 5) else prob
    let n := normalize { rc with code := rc.code - bound, range := rc.range - bound }
    (n.1.map fun _ => true, n.2, prob')

/-- Loop of `RangeDecoder::parse_bit_tree`: walk `n` adaptive bits down a
probability tree, `tmp = (tmp << 1) ^ bit`. -/
def parseBitTreeAux : Nat → RC → Nat → List Nat → Bool → Except Err Nat × RC × List Nat
  | 0, rc, tmp, probs, _ => (.ok tmp, rc, probs)
  | n + 1, rc, tmp, probs, update =>
    let d := decodeBit rc (probs.getD tmp 0) update
    let probs' := probs.set tmp d.2.2
    match d.1 with
    | .error e => (.error e, d.2.1, probs')
    | .ok bit => parseBitTreeAux n d.2.1 ((tmp <<< 1) ^^^ (if bit then 1 else 0)) probs' update

/-- `RangeDecoder::parse_bit_tree`: result is the final index minus `1 << n`. -/
def parseBitTree (rc : RC) (numBits : Nat) (probs : List Nat) (update : Bool) :
    Except Err Nat × RC × List Nat :=
  let r := parseBitTreeAux numBits rc 1 probs update
  (r.1.map fun tmp => tmp - (1 <<< numBits), r.2.1, r.2.2)

/-- Loop of `RangeDecoder::parse_reverse_bit_tree`: same walk as the forward
tree over `probs[offset + tmp]`, accumulating `bit << i` (LSB first). -/
def parseReverseBitTreeAux :
    Nat → Nat → RC → Nat → Nat → List Nat → Nat → Bool → Except Err Nat × RC × List Nat
  | 0, _, rc, _, result, probs, _, _ => (.ok result, rc, probs)
  | n + 1, i, rc, tmp, result, probs, offset, update =>
    let d := decodeBit rc (probs.getD (offset + tmp) 0) update
    let probs' := probs.set (offset + tmp) d.2.2
    match d.1 with
    | .error e => (.error e, d.2.1, probs')
    | .ok bit =>
      parseReverseBitTreeAux n (i + 1) d.2.1 ((tmp <<< 1) ^^^ (if bit then 1 else 0))
        (result ^^^ ((if bit then 1 else 0) <<< i)) probs' offset update

/-- `RangeDecoder::parse_reverse_bit_tree`. -/
def parseReverseBitTree (rc : RC) (numBits : Nat) (probs : List Nat) (offset : Nat)
    (update : Bool) : Except Err Nat × RC × List Nat :=
  parseReverseBitTreeAux numBits 0 rc 1 0 probs offset update

/-- `RangeDecoder::is_eof` for the single-chunk stream model. -/
def isEof (rc : RC) : Bool := rc.stream.isEmpty

/-- `RangeDecoder::is_finished_ok`: `code == 0` and no more input bytes. -/
def isFinishedOk (rc : RC) : Bool := rc.code == 0 && isEof rc

/-- The length decoder of `rangecoder.rs` (`LenDecoder` data plus its
`AbstractLenDecoder::decode`): two choice cells, sixteen 3-bit low trees,
sixteen 3-bit mid trees and one 8-bit high tree. -/
structure LenDecoder where
  choice : Nat
  choice2 : Nat
  lowCoder : List (List Nat)
  midCoder : List (List Nat)
  highCoder : List Nat
  deriving DecidableEq

/-- `LenDecoder::new` / `reset`: all probability cells at 0x400. -/
def LenDecoder.init : LenDecoder :=
  { choice := 0x400
    choice2 := 0x400
    lowCoder := List.replicate 16 (List.replicate 8 0x400)
    midCoder := List.replicate 16 (List.replicate 8 0x400)
    highCoder := List.replicate 256 0x400 }

/-- `AbstractLenDecoder::decode`: choice bit 0 selects the 3-bit low tree of
`pos_state`; otherwise choice2 bit 0 the mid tree plus 8; otherwise the
8-bit high tree plus 16. -/
def LenDecoder.decode (ld : LenDecoder) (rc : RC) (posState : Nat) (update : Bool) :
    Except Err Nat × RC × LenDecoder :=
  let d := decodeBit rc ld.choice update
  let ld := { ld with choice := d.2.2 }
  match d.1 with
  | .error e => (.error e, d.2.1, ld)
  | .ok false =>
    let p := parseBitTree d.2.1 3 (ld.lowCoder.getD posState []) update
    (p.1, p.2.1, { ld with lowCoder := ld.lowCoder.set posState p.2.2 })
  | .ok true =>
    let d2 := decodeBit d.2.1 ld.choice2 update
    let ld := { ld with choice2 := d2.2.2 }
    match d2.1 with
    | .error e => (.error e, d2.2.1, ld)
    | .ok false =>
      let p := parseBitTree d2.2.1 3 (ld.midCoder.getD posState []) update
      (p.1.map (· + 8), p.2.1, { ld with midCoder := ld.midCoder.set posState p.2.2 })
    | .ok true =>
      let p := parseBitTree d2.2.1 8 ld.highCoder update
      (p.1.map (· + 16), p.2.1, { ld with highCoder := p.2.2 })

/-- Modelled from the spec: the output window (`LzBuffer`, not among the
embedded source files).  `data` is the full byte sequence emitted so far
(most recent last) and `dictSize` the configured dictionary capacity, so
`len()` is `data.length` and a byte `d` back is unavailable once `d`
exceeds the window capacity or the bytes written. -/
structure OutWindow where
  dictSize : Nat
  data : List Nat
  deriving DecidableEq

/-- Modelled from the spec: `len()` — total bytes written. -/
def OutWindow.len (w : OutWindow) : Nat := w.data.length

/-- Modelled from the spec: `last_or(default)` — most recently emitted byte,
or the default when none. -/
def OutWindow.lastOr (w : OutWindow) (d : Nat) : Nat := w.data.getLastD d

/-- Modelled from the spec: `last_n(dist)` — the byte `dist` back, an
`InvalidBackReference` error when unavailable (distance zero, beyond the
bytes written, or beyond the dictionary capacity). -/
def OutWindow.lastN (w : OutWindow) (dist : Nat) : Except Err Nat :=
  if dist = 0 ∨ w.data.length < dist ∨ w.dictSize < dist then .error .invalidBackReference
  else .ok (w.data.getD (w.data.length - dist) 0)

/-- Modelled from the spec: `append_literal(byte)`. -/
def OutWindow.appendLiteral (w : OutWindow) (byte : Nat) : OutWindow :=
  { w with data := w.data ++ [byte] }

/-- Loop of the self-referential LZ copy: append the byte `dist` back,
`len` times, re-reading the growing output so `dist < len` repeats data. -/
def lzCopy (data : List Nat) : Nat → Nat → List Nat
  | 0, _ => data
  | n + 1, dist => lzCopy (data ++ [data.getD (data.length - dist) 0]) n dist

/-- Modelled from the spec: `append_lz(len, dist)` — copies `len` bytes from
`dist` back (classic self-referential copy); `InvalidBackReference` when the
distance is outside the available window. -/
def OutWindow.appendLz (w : OutWindow) (len dist : Nat) : Except Err Unit × OutWindow :=
  if dist = 0 ∨ w.data.length < dist ∨ w.dictSize < dist then (.error .invalidBackReference, w)
  else (.ok (), { w with data := lzCopy w.data len dist })

/-- Modelled from the spec: `set_dict_size(n)`. -/
def OutWindow.setDictSize (w : OutWindow) (n : Nat) : OutWindow :=
  { w with dictSize := n }

/-- Modelled from the spec: `reset()`. -/
def OutWindow.reset (w : OutWindow) : OutWindow :=
  { w with data := [] }

/-- `LzmaParams` of `lzma.rs` (`unpacked_size` is `None` for
unknown-size-with-EOS-marker streams). -/
structure LzmaParams where
  lc : Nat
  lp : Nat
  pb : Nat
  dictSize : Nat
  unpackedSize : Option Nat
  deriving DecidableEq

/-- `ProcessingStatus` of `lzma.rs`. -/
inductive ProcessingStatus where
  | Uninitialized
  | Continue
  | Finished
  deriving DecidableEq

/-- `ProcessingMode` of `lzma.rs`. -/
inductive ProcessingMode where
  | Partial
  | Finish
  deriving DecidableEq

/-- `DecoderState` of `lzma.rs`.  `residualInput` models the filled prefix
of `partial_input_buf` (an `io::Cursor` over a 20-byte array whose position
is the fill level); `probsMemLimit` models the `PROBS_MEM_LIMIT` const
generic, the row count of `literal_probs`. -/
structure DecoderState where
  probsMemLimit : Nat
  processingStatus : ProcessingStatus
  params : Option LzmaParams
  residualInput : List Nat
  output : OutWindow
  literalProbs : List (List Nat)
  posSlotDecoder : List (List Nat)
  alignDecoder : List Nat
  posDecoders : List Nat
  isMatch : List Nat
  isRep : List Nat
  isRepG0 : List Nat
  isRepG1 : List Nat
  isRepG2 : List Nat
  isRep0long : List Nat
  state : Nat
  rep : List Nat
  lenDecoder : LenDecoder
  repLenDecoder : LenDecoder
  deriving DecidableEq

/-- `MAX_REQUIRED_INPUT`: most input one packet can consume. -/
def MAX_REQUIRED_INPUT : Nat := 20

/-- `DecoderState::reset`: status `Continue`, all probability arrays filled
with 0x400, automaton state 0, all rep distances 0, empty residual buffer,
params cleared, output reset. -/
def resetState (s : DecoderState) : DecoderState :=
  { s with
    processingStatus := .Continue
    output := s.output.reset
    residualInput := []
    params := none
    literalProbs := List.replicate s.probsMemLimit (List.replicate 0x300 0x400)
    posSlotDecoder := List.replicate 4 (List.replicate 64 0x400)
    alignDecoder := List.replicate 16 0x400
    posDecoders := List.replicate 115 0x400
    isMatch := List.replicate 192 0x400
    isRep := List.replicate 12 0x400
    isRepG0 := List.replicate 12 0x400
    isRepG1 := List.replicate 12 0x400
    isRepG2 := List.replicate 12 0x400
    isRep0long := List.replicate 192 0x400
    state := 0
    rep := List.replicate 4 0
    lenDecoder := LenDecoder.init
    repLenDecoder := LenDecoder.init }

/-- `DecoderState::set_params`: panic when uninitialized; distinct
`ProbabilitiesBufferTooSmall{needed, available}` error when
`1 << (lc + lp)` exceeds `PROBS_MEM_LIMIT`; otherwise install the
dictionary size and then the params. -/
def setParams (s : DecoderState) (p : LzmaParams) : Except Err Unit × DecoderState :=
  if s.processingStatus = .Uninitialized then (.error .panicked, s)
  else if s.probsMemLimit < 1 <<< (p.lc + p.lp) then
    (.error (.probabilitiesBufferTooSmall (1 <<< (p.lc + p.lp)) s.probsMemLimit), s)
  else
    let s := { s with output := s.output.setDictSize p.dictSize }
    (.ok (), { s with params := some p })

/-- The matched-literal loop of `decode_literal` (`state >= 7`): while
`result < 0x100`, decode against `probs[((1 + match_bit) << 8) + result]`
and stop early when the decoded bit departs from the match byte's bit.
The explicit fuel only bounds iterations: from the entry value `result = 1`
the loop needs at most 8 of the 0x100 supplied. -/
def literalMatchedLoop :
    Nat → RC → List Nat → Nat → Nat → Bool → Except Err Nat × RC × List Nat
  | 0, rc, probs, _, result, _ => (.ok result, rc, probs)
  | fuel + 1, rc, probs, matchByte, result, update =>
    if result < 0x100 then
      let matchBit := (matchByte >>> 7) &&& 1
      let matchByte := matchByte <<< 1
      let idx := ((1 + matchBit) <<< 8) + result
      let d := decodeBit rc (probs.getD idx 0) update
      let probs' := probs.set idx d.2.2
      match d.1 with
      | .error e => (.error e, d.2.1, probs')
      | .ok bit =>
        let bitN := if bit then 1 else 0
        let result := (result <<< 1) ^^^ bitN
        if matchBit ≠ bitN then (.ok result, d.2.1, probs')
        else literalMatchedLoop fuel d.2.1 probs' matchByte result update
    else (.ok result, rc, probs)

/-- The plain literal loop of `decode_literal`: while `result < 0x100`,
decode against `probs[result]` and shift the bit in.  Fuel as in
`literalMatchedLoop`. -/
def literalPlainLoop :
    Nat → RC → List Nat → Nat → Bool → Except Err Nat × RC × List Nat
  | 0, rc, probs, result, _ => (.ok result, rc, probs)
  | fuel + 1, rc, probs, result, update =>
    if result < 0x100 then
      let d := decodeBit rc (probs.getD result 0) update
      let probs' := probs.set result d.2.2
      match d.1 with
      | .error e => (.error e, d.2.1, probs')
      | .ok bit =>
        literalPlainLoop fuel d.2.1 probs' ((result <<< 1) ^^^ (if bit then 1 else 0)) update
    else (.ok result, rc, probs)

/-- `DecoderState::decode_literal`: select the probability subtree from
`lit_state`, run the matched-literal loop when `state >= 7` (the look-up of
the byte at `rep[0] + 1` back may fail), then the plain loop; the emitted
byte is `result - 0x100` (as `u8`). -/
def decodeLiteral (s : DecoderState) (rc : RC) (update : Bool) :
    Except Err Nat × DecoderState × RC :=
  match s.params with
  | none => (.error .panicked, s, rc)
  | some params =>
    let prevByte := s.output.lastOr 0
    let litState := ((s.output.len &&& ((1 <<< params.lp) - 1)) <<< params.lc)
      + (prevByte >>> (8 - params.lc))
    let probs := s.literalProbs.getD litState []
    if 7 ≤ s.state then
      match s.output.lastN (s.rep.getD 0 0 + 1) with
      | .error e => (.error e, s, rc)
      | .ok matchByte =>
        let m := literalMatchedLoop 0x100 rc probs matchByte 1 update
        let s1 := { s with literalProbs := s.literalProbs.set litState m.2.2 }
        match m.1 with
        | .error e => (.error e, s1, m.2.1)
        | .ok result =>
          let p := literalPlainLoop 0x100 m.2.1 m.2.2 result update
          let s2 := { s with literalProbs := s.literalProbs.set litState p.2.2 }
          (p.1.map fun result => (result - 0x100) % 256, s2, p.2.1)
    else
      let p := literalPlainLoop 0x100 rc probs 1 update
      let s1 := { s with literalProbs := s.literalProbs.set litState p.2.2 }
      (p.1.map fun result => (result - 0x100) % 256, s1, p.2.1)

/-- `DecoderState::decode_distance`: 6-bit pos-slot tree chosen by
`min(len, 3)`; slots below 4 are the distance; otherwise the base
`(2 ^ (pos_slot & 1)) << num_direct_bits` (a bitwise XOR in the source) is
increased by the reverse `pos_decoders` parse at offset `result - pos_slot`
for slots below 14, and by direct bits shifted left 4 plus the reverse
align parse otherwise. -/
def decodeDistance (s : DecoderState) (rc : RC) (length : Nat) (update : Bool) :
    Except Err Nat × DecoderState × RC :=
  let lenState := if length > 3 then 3 else length
  let t := parseBitTree rc 6 (s.posSlotDecoder.getD lenState []) update
  let s := { s with posSlotDecoder := s.posSlotDecoder.set lenState t.2.2 }
  match t.1 with
  | .error e => (.error e, s, t.2.1)
  | .ok posSlot =>
    if posSlot < 4 then (.ok posSlot, s, t.2.1)
    else
      let numDirectBits := (posSlot >>> 1) - 1
      let result := (2 ^^^ (posSlot &&& 1)) <<< numDirectBits
      if posSlot < 14 then
        let r := parseReverseBitTree t.2.1 numDirectBits s.posDecoders (result - posSlot) update
        let s := { s with posDecoders := r.2.2 }
        (r.1.map fun v => result + v, s, r.2.1)
      else
        let g := RC.get t.2.1 (numDirectBits - 4)
        match g.1 with
        | .error e => (.error e, s, g.2)
        | .ok bits =>
          let result := result + (bits <<< 4)
          let a := parseReverseBitTree g.2 4 s.alignDecoder 0 update
          let s := { s with alignDecoder := a.2.2 }
          (a.1.map fun v => result + v, s, a.2.1)

/-- The common tail of an LZ packet in `process_next_inner`: on update, add
2 to the decoded length and append `len` bytes from `rep[0] + 1` back. -/
def lzTail (s : DecoderState) (rc : RC) (len : Nat) (update : Bool) :
    Except Err ProcessingStatus × DecoderState × RC :=
  if update then
    let len := len + 2
    let dist := s.rep.getD 0 0 + 1
    let a := s.output.appendLz len dist
    let s := { s with output := a.2 }
    match a.1 with
    | .error e => (.error e, s, rc)
    | .ok _ => (.ok .Continue, s, rc)
  else (.ok .Continue, s, rc)

/-- The end of the new-distance branch of `process_next_inner`: on update,
store the decoded distance in `rep[0]`; when it is the 0xFFFFFFFF
end-of-stream marker, transition to `Finished` when the range decoder is
finished-ok and fail with `EosFoundButMoreBytesAvailable` otherwise; in all
other cases fall through to the common LZ tail. -/
def newDistFinish (s : DecoderState) (rc : RC) (rep0 len : Nat) (update : Bool) :
    Except Err ProcessingStatus × DecoderState × RC :=
  if update then
    let s := { s with rep := s.rep.set 0 rep0 }
    if s.rep.getD 0 0 = 0xFFFFFFFF then
      if isFinishedOk rc then
        (.ok .Finished, { s with processingStatus := .Finished }, rc)
      else (.error .eosFoundButMoreBytesAvailable, s, rc)
    else lzTail s rc len update
  else lzTail s rc len update

/-- The rep-index selection of `process_next_inner` (`is_rep_g0 = 1`):
`is_rep_g1` bit 0 gives index 1, otherwise `is_rep_g2` bit 0 gives 2 and
bit 1 gives 3. -/
def repIdx (s : DecoderState) (rc : RC) (update : Bool) :
    Except Err Nat × DecoderState × RC :=
  let d := decodeBit rc (s.isRepG1.getD s.state 0) update
  let s := { s with isRepG1 := s.isRepG1.set s.state d.2.2 }
  match d.1 with
  | .error e => (.error e, s, d.2.1)
  | .ok false => (.ok 1, s, d.2.1)
  | .ok true =>
    let d2 := decodeBit d.2.1 (s.isRepG2.getD s.state 0) update
    let s := { s with isRepG2 := s.isRepG2.set s.state d2.2.2 }
    match d2.1 with
    | .error e => (.error e, s, d2.2.1)
    | .ok false => (.ok 2, s, d2.2.1)
    | .ok true => (.ok 3, s, d2.2.1)

/-- Loop of the rep LRU rotation: `for i in (0..idx).rev() { rep[i+1] = rep[i] }`. -/
def shiftRepUp : Nat → List Nat → List Nat
  | 0, l => l
  | i + 1, l => shiftRepUp i (l.set (i + 1) (l.getD i 0))

/-- The rep LRU rotation of `process_next_inner`: read `rep[idx]`, shift
`rep[0..idx]` up by one and store the chosen distance at `rep[0]`. -/
def rotateRep (rep : List Nat) (idx : Nat) : List Nat :=
  let dist := rep.getD idx 0
  (shiftRepUp idx rep).set 0 dist

/-- The tail shared by all rep-match branches of `process_next_inner`:
decode the length with `rep_len_decoder`, then on update set the state to
8 / 11 and run the common LZ tail. -/
def repMatchTail (s : DecoderState) (rc : RC) (posState : Nat) (update : Bool) :
    Except Err ProcessingStatus × DecoderState × RC :=
  let l := s.repLenDecoder.decode rc posState update
  let s := { s with repLenDecoder := l.2.2 }
  match l.1 with
  | .error e => (.error e, s, l.2.1)
  | .ok len =>
    let s := if update then { s with state := if s.state < 7 then 8 else 11 } else s
    lzTail s l.2.1 len update

/-- `DecoderState::process_next_inner`: decode one LZMA packet.  Dispatch on
`is_match` / `is_rep` / `is_rep_g0` / `is_rep_0long` / `is_rep_g1` /
`is_rep_g2` as in the source; on update apply the literal/short-rep/
rep-match/new-match state transition, maintain the rep LRU, and emit output
bytes; the new-distance branch ends in the EOS-marker check. -/
def processNextInner (s : DecoderState) (rc : RC) (update : Bool) :
    Except Err ProcessingStatus × DecoderState × RC :=
  match s.params with
  | none => (.error .panicked, s, rc)
  | some params =>
    let posState := s.output.len &&& ((1 <<< params.pb) - 1)
    let idx1 := (s.state <<< 4) + posState
    let d1 := decodeBit rc (s.isMatch.getD idx1 0) update
    let s := { s with isMatch := s.isMatch.set idx1 d1.2.2 }
    match d1.1 with
    | .error e => (.error e, s, d1.2.1)
    | .ok false =>
      -- Literal
      let l := decodeLiteral s d1.2.1 update
      match l.1 with
      | .error e => (.error e, l.2.1, l.2.2)
      | .ok byte =>
        if update then
          let s := l.2.1
          let s := { s with output := s.output.appendLiteral byte }
          let s := { s with state :=
            if s.state < 4 then 0 else if s.state < 10 then s.state - 3 else s.state - 6 }
          (.ok .Continue, s, l.2.2)
        else (.ok .Continue, l.2.1, l.2.2)
    | .ok true =>
      -- LZ
      let d2 := decodeBit d1.2.1 (s.isRep.getD s.state 0) update
      let s := { s with isRep := s.isRep.set s.state d2.2.2 }
      match d2.1 with
      | .error e => (.error e, s, d2.2.1)
      | .ok true =>
        -- Distance repeated from the LRU
        let d3 := decodeBit d2.2.1 (s.isRepG0.getD s.state 0) update
        let s := { s with isRepG0 := s.isRepG0.set s.state d3.2.2 }
        match d3.1 with
        | .error e => (.error e, s, d3.2.1)
        | .ok false =>
          let idx2 := (s.state <<< 4) + posState
          let d4 := decodeBit d3.2.1 (s.isRep0long.getD idx2 0) update
          let s := { s with isRep0long := s.isRep0long.set idx2 d4.2.2 }
          match d4.1 with
          | .error e => (.error e, s, d4.2.1)
          | .ok false =>
            -- Short rep: length 1 at rep[0]
            if update then
              let s := { s with state := if s.state < 7 then 9 else 11 }
              let dist := s.rep.getD 0 0 + 1
              let a := s.output.appendLz 1 dist
              let s := { s with output := a.2 }
              match a.1 with
              | .error e => (.error e, s, d4.2.1)
              | .ok _ => (.ok .Continue, s, d4.2.1)
            else (.ok .Continue, s, d4.2.1)
          | .ok true =>
            -- Rep-0 match of decoded length
            repMatchTail s d4.2.1 posState update
        | .ok true =>
          -- Rep-i match: pick the LRU index and rotate
          let ri := repIdx s d3.2.1 update
          match ri.1 with
          | .error e => (.error e, ri.2.1, ri.2.2)
          | .ok idx =>
            let s := ri.2.1
            let s := if update then { s with rep := rotateRep s.rep idx } else s
            repMatchTail s ri.2.2 posState update
      | .ok false =>
        -- New distance
        let s := if update then
          { s with rep :=
              (let r1 := s.rep.set 3 (s.rep.getD 2 0)
               let r2 := r1.set 2 (r1.getD 1 0)
               r2.set 1 (r2.getD 0 0)) }
          else s
        let l := s.lenDecoder.decode d2.2.1 posState update
        let s := { s with lenDecoder := l.2.2 }
        match l.1 with
        | .error e => (.error e, s, l.2.1)
        | .ok len =>
          let s := if update then { s with state := if s.state < 7 then 7 else 10 } else s
          let dd := decodeDistance s l.2.1 len update
          match dd.1 with
          | .error e => (.error e, dd.2.1, dd.2.2)
          | .ok rep0 => newDistFinish dd.2.1 dd.2.2 rep0 len update

/-- `DecoderState::try_process_next`: run one speculative step with
`update = false` against a temporary range decoder built over `buf` and
copies of the live `range` / `code` registers (the live decoder itself is
never touched). -/
def tryProcessNext (s : DecoderState) (buf : List Nat) (range code : Nat) :
    Except Err Unit × DecoderState :=
  let r := processNextInner s ⟨buf, range, code⟩ false
  (r.1.map fun _ => (), r.2.1)

/-- `DecoderState::read_partial_input_buf`: top the residual buffer up to
`MAX_REQUIRED_INPUT` bytes from the input stream. -/
def readResidual (s : DecoderState) (rc : RC) : DecoderState × RC :=
  let space := MAX_REQUIRED_INPUT - s.residualInput.length
  ({ s with residualInput := s.residualInput ++ rc.stream.take space },
   { rc with stream := rc.stream.drop space })

/-- The code after the `process_mode` loop: in Finish mode with a known
unpacked size, fail with `ProcessedDataDoesNotMatchUnpackedSize` unless the
emitted byte count matches. -/
def postLoopCheck (params : LzmaParams) (mode : ProcessingMode) (s : DecoderState) (rc : RC) :
    Except Err Unit × DecoderState × RC :=
  match params.unpackedSize with
  | some u =>
    if mode = .Finish ∧ u ≠ s.output.len then
      (.error (.processedDataDoesNotMatchUnpackedSize u s.output.len), s, rc)
    else (.ok (), s, rc)
  | none => (.ok (), s, rc)

/-- The loop-termination test at the top of each `process_mode` iteration:
a known unpacked size already produced, or (for unknown size) end of input
(Partial) / finished-ok (Finish) with an empty residual buffer. -/
def stopCond (params : LzmaParams) (mode : ProcessingMode) (s : DecoderState) (rc : RC) : Bool :=
  match params.unpackedSize with
  | some u => decide (u ≤ s.output.len)
  | none =>
    match mode with
    | .Partial => isEof rc && s.residualInput.isEmpty
    | .Finish => isFinishedOk rc && s.residualInput.isEmpty

/-- The loop of `DecoderState::process_mode`, with explicit fuel bounding
the number of iterations (the source loop is unbounded).  Each iteration:
check the three termination conditions; then either work through the
residual buffer (topping it up, speculatively dry-running in Partial mode
when fewer than `MAX_REQUIRED_INPUT` bytes are buffered, then running a
real step against a local range decoder over the buffer and writing the
consumed registers back), or step directly against the live decoder (again
with a Partial-mode dry run when the available chunk is short, whose
failure stashes the chunk into the residual buffer and returns normally). -/
def processModeGo (params : LzmaParams) (mode : ProcessingMode) :
    Nat → DecoderState → RC → Except Err Unit × DecoderState × RC
  | 0, s, rc => (.error .outOfFuel, s, rc)
  | fuel + 1, s, rc =>
    if stopCond params mode s rc then postLoopCheck params mode s rc
    else if s.residualInput.length ≠ 0 then
      let w := readResidual s rc
      let tmp := w.1.residualInput
      let step := fun (sx : DecoderState) =>
        let p := processNextInner sx ⟨tmp, w.2.range, w.2.code⟩ true
        match p.1 with
        | .error e => (.error e, p.2.1, w.2)
        | .ok res =>
          let rcL : RC := { w.2 with range := p.2.2.range, code := p.2.2.code }
          let s2 := { p.2.1 with residualInput := p.2.2.stream }
          if res = .Finished then postLoopCheck params mode s2 rcL
          else processModeGo params mode fuel s2 rcL
      if mode = .Partial ∧ tmp.length < MAX_REQUIRED_INPUT then
        let t := tryProcessNext w.1 tmp w.2.range w.2.code
        if isErrB t.1 then (.ok (), t.2, w.2) else step t.2
      else step w.1
    else
      let buf := rc.stream
      let step := fun (sx : DecoderState) =>
        let p := processNextInner sx rc true
        match p.1 with
        | .error e => (.error e, p.2.1, p.2.2)
        | .ok res =>
          if res = .Finished then postLoopCheck params mode p.2.1 p.2.2
          else processModeGo params mode fuel p.2.1 p.2.2
      if mode = .Partial ∧ buf.length < MAX_REQUIRED_INPUT then
        let t := tryProcessNext s buf rc.range rc.code
        if isErrB t.1 then
          let w := readResidual t.2 rc
          (.ok (), w.1, w.2)
        else step t.2
      else step s

/-- `DecoderState::process_mode`: panic when uninitialized or without
params, then run the loop. -/
def processMode (fuel : Nat) (s : DecoderState) (rc : RC) (mode : ProcessingMode) :
    Except Err Unit × DecoderState × RC :=
  if s.processingStatus = .Uninitialized then (.error .panicked, s, rc)
  else
    match s.params with
    | none => (.error .panicked, s, rc)
    | some params => processModeGo params mode fuel s rc

/-! Specification-side definitions, written from the specification's and the
claims' own words, for comparison against the source embeddings above. -/

/-- The adaptive bit decode exactly as the specification words it: compute
`bound = (range >> 11) * p`; if `code < bound` the bit is 0, `range`
becomes `bound`, and on update `p += (0x800 - p) >> 5`; otherwise the bit
is 1, `range` and `code` both decrease by `bound`, and on update
`p -= p >> 5`; in both branches normalize. -/
def decodeBitSpec (rc : RC) (prob : Nat) (update : Bool) : Except Err Bool × RC × Nat :=
  let bound := ((rc.range >>> 11) * prob) % 4294967296
  if rc.code < bound then
    let rc1 : RC := { rc with range := bound }
    let prob' := if update then prob + ((0x800 - prob) >>> 5) else prob
    let n := normalize rc1
    (n.1.map fun _ => false, n.2, prob')
  else
    let rc1 : RC := { rc with range := rc.range - bound, code := rc.code - bound }
    let prob' := if update then prob - (prob >>> 5) else prob
    let n := normalize rc1
    (n.1.map fun _ => true, n.2, prob')

/-- The distance decode as the claim words it, with the LZMA-canonical
OR-form base `(2 | (pos_slot & 1)) << num_direct_bits`; everything else as
in §4.3.3: reverse `pos_decoders` parse at offset `base - pos_slot` for
slots below 14, direct bits shifted left 4 plus the reverse align parse
otherwise. -/
def decodeDistanceSpec (s : DecoderState) (rc : RC) (length : Nat) (update : Bool) :
    Except Err Nat × DecoderState × RC :=
  let lenState := if length > 3 then 3 else length
  let t := parseBitTree rc 6 (s.posSlotDecoder.getD lenState []) update
  let s := { s with posSlotDecoder := s.posSlotDecoder.set lenState t.2.2 }
  match t.1 with
  | .error e => (.error e, s, t.2.1)
  | .ok posSlot =>
    if posSlot < 4 then (.ok posSlot, s, t.2.1)
    else
      let numDirectBits := (posSlot >>> 1) - 1
      let base := (2 ||| (posSlot &&& 1)) <<< numDirectBits
      if posSlot < 14 then
        let r := parseReverseBitTree t.2.1 numDirectBits s.posDecoders (base - posSlot) update
        let s := { s with posDecoders := r.2.2 }
        (r.1.map fun v => base + v, s, r.2.1)
      else
        let g := RC.get t.2.1 (numDirectBits - 4)
        match g.1 with
        | .error e => (.error e, s, g.2)
        | .ok bits =>
          let base := base + (bits <<< 4)
          let a := parseReverseBitTree g.2 4 s.alignDecoder 0 update
          let s := { s with alignDecoder := a.2.2 }
          (a.1.map fun v => base + v, s, a.2.1)

/-- The four packet kinds of one LZMA step. -/
inductive PacketKind where
  | literal
  | shortRep
  | repMatch
  | newMatch
  deriving DecidableEq

/-- The state-transition table of the specification (§4.3). -/
def stateTransitionTable (k : PacketKind) (st : Nat) : Nat :=
  match k with
  | .literal => if st < 4 then 0 else if st < 10 then st - 3 else st - 6
  | .shortRep => if st < 7 then 9 else 11
  | .repMatch => if st < 7 then 8 else 11
  | .newMatch => if st < 7 then 7 else 10

/-- The packet dispatch of the specification (§4.3), as a classifier: which
of the four packet kinds the next step decodes, following the
`is_match` / `is_rep` / `is_rep_g0` / `is_rep_0long` bits (`none` when the
relevant bits cannot be decoded).  Both rep-0 long matches and
rep-i matches are rep-matches. -/
def classifyPacket (s : DecoderState) (rc : RC) : Option PacketKind :=
  match s.params with
  | none => none
  | some params =>
    let posState := s.output.len &&& ((1 <<< params.pb) - 1)
    let idx1 := (s.state <<< 4) + posState
    let d1 := decodeBit rc (s.isMatch.getD idx1 0) true
    match d1.1 with
    | .error _ => none
    | .ok false => some .literal
    | .ok true =>
      let d2 := decodeBit d1.2.1 (s.isRep.getD s.state 0) true
      match d2.1 with
      | .error _ => none
      | .ok false => some .newMatch
      | .ok true =>
        let d3 := decodeBit d2.2.1 (s.isRepG0.getD s.state 0) true
        match d3.1 with
        | .error _ => none
        | .ok true => some .repMatch
        | .ok false =>
          let idx2 := (s.state <<< 4) + posState
          let d4 := decodeBit d3.2.1 (s.isRep0long.getD idx2 0) true
          match d4.1 with
          | .error _ => none
          | .ok false => some .shortRep
          | .ok true => some .repMatch

/-- The value of one probability cell after a sequence of adaptive bit
decodes, each against some range-decoder state and update flag. -/
def probUpdateSeq (ops : List (RC × Bool)) (p : Nat) : Nat :=
  ops.foldl (fun q op => (decodeBit op.1 q op.2).2.2) p

/-! Concrete sample states used by the witnesses and counterexamples. -/

/-- A freshly constructed decoder value (cf. `DecoderState::new`) with
`PROBS_MEM_LIMIT = 1`. -/
def newState : DecoderState :=
  { probsMemLimit := 1
    processingStatus := .Uninitialized
    params := none
    residualInput := []
    output := { dictSize := 0, data := [] }
    literalProbs := []
    posSlotDecoder := []
    alignDecoder := []
    posDecoders := []
    isMatch := []
    isRep := []
    isRepG0 := []
    isRepG1 := []
    isRepG2 := []
    isRep0long := []
    state := 0
    rep := []
    lenDecoder := LenDecoder.init
    repLenDecoder := LenDecoder.init }

/-- A decoder after `reset` and `set_params` with `lc = lp = pb = 0`,
dictionary size 0x1000 and unknown unpacked size. -/
def sampleState : DecoderState :=
  (setParams (resetState newState)
    { lc := 0, lp := 0, pb := 0, dictSize := 0x1000, unpackedSize := none }).2

/-- A decoder as it stands right after decoding the end-of-stream marker:
status `Finished`, automaton state 7, the EOS sentinel in `rep[0]`. -/
def sampleFinishedState : DecoderState :=
  { sampleState with processingStatus := .Finished, state := 7, rep := [0xFFFFFFFF, 0, 0, 0] }

/-- A range decoder with twenty zero input bytes and `code = 0`. -/
def sampleRc : RC := { stream := List.replicate 20 0, range := 0xFFFFFFFF, code := 0 }

/-- A range decoder continuing after the EOS marker (`code = 0`) but
supplied with three additional input bytes. -/
def sampleRcExtra : RC := { stream := [0, 0, 0], range := 0xFFFFFFFF, code := 0 }

/-- A range decoder at a clean end of input: `code = 0`, empty stream. -/
def sampleRcDone : RC := { stream := [], range := 0x2000000, code := 0 }

/-! Shared helper lemmas. -/

/-- Writing back the value a list already holds is the identity. -/
theorem set_getD_self {α : Type} (l : List α) (i : Nat) (d : α) :
    l.set i (l.getD i d) = l := by
  induction l generalizing i with
  | nil => rfl
  | cons a t ih =>
    cases i with
    | zero => rfl
    | succ j => simpa [List.set, List.getD] using ih j

/-- `decode_bit` leaves the probability cell unchanged when `update` is
false. -/
theorem decodeBit_prob_noupdate (rc : RC) (p : Nat) :
    (decodeBit rc p false).2.2 = p := by
  unfold decodeBit
  split
  · exact absurd ‹false = true› (by simp)
  · dsimp only
    split <;> rfl

/-- `2 XOR b = 2 OR b` for the single-bit values `b` can take: bit 1 of the
constant 2 never collides with bit 0 of `pos_slot & 1`. -/
theorem two_xor_and_one (ps : Nat) : 2 ^^^ (ps &&& 1) = 2 ||| (ps &&& 1) := by
  have h : ps &&& 1 ≤ 1 := Nat.and_le_right
  interval_cases h : ps &&& 1 <;> rfl

/-- C1: in `decode_distance`, for every pos-slot 4..=63 the distance base
computed by the source's XOR expression `(2 ^ (pos_slot & 1)) << num_direct_bits`
equals the claimed OR form `(2 | (pos_slot & 1)) << num_direct_bits`
(`pos_slot & 1` never sets bit 1, so XOR and OR with 2 agree), and the
remaining structure — the reverse `pos_decoders` parse at offset
`base - pos_slot` for slots below 14, and direct bits shifted left 4 plus
the reverse align parse for slots 14 and above — is exactly as claimed:
`decode_distance` coincides with its specification rendering. -/
theorem decodeDistance_eq_spec (s : DecoderState) (rc : RC) (length : Nat) (update : Bool) :
    decodeDistance s rc length update = decodeDistanceSpec s rc length update := by
  unfold decodeDistance decodeDistanceSpec
  simp only [two_xor_and_one]

/-- C2: the adaptive bit decode is exactly the specification's:
`bound = (range >> 11) * p`; on `code < bound` bit 0, `range = bound`,
update `p += (0x800 - p) >> 5`; otherwise bit 1, `range -= bound`,
`code -= bound`, update `p -= p >> 5`; then normalize. -/
theorem decodeBit_eq_spec (rc : RC) (prob : Nat) (update : Bool) :
    decodeBit rc prob update = decodeBitSpec rc prob update := rfl

/-- The adaptive increment keeps a cell strictly between 0 and 0x800. -/
theorem probUp_bounds (p : Nat) (h0 : 0 < p) (h1 : p < 0x800) :
    0 < p + ((0x800 - p) >>> 5) ∧ p + ((0x800 - p) >>> 5) < 0x800 := by
  rw [Nat.shiftRight_eq_div_pow]
  have hq : (0x800 - p) / 2 ^ 5 < 0x800 - p := Nat.div_lt_self (by omega) (by omega)
  omega

/-- The adaptive decrement keeps a cell strictly between 0 and 0x800. -/
theorem probDown_bounds (p : Nat) (h0 : 0 < p) (h1 : p < 0x800) :
    0 < p - (p >>> 5) ∧ p - (p >>> 5) < 0x800 := by
  rw [Nat.shiftRight_eq_div_pow]
  have hq : p / 2 ^ 5 < p := Nat.div_lt_self (by omega) (by omega)
  omega

/-- One `decode_bit` keeps a probability cell strictly between 0 and
0x800, whatever the decoder state and update flag. -/
theorem decodeBit_prob_bounds (rc : RC) (p : Nat) (u : Bool) (h0 : 0 < p) (h1 : p < 0x800) :
    0 < (decodeBit rc p u).2.2 ∧ (decodeBit rc p u).2.2 < 0x800 := by
  cases u with
  | false => rw [decodeBit_prob_noupdate]; exact ⟨h0, h1⟩
  | true =>
    unfold decodeBit
    dsimp only
    split
    · exact probUp_bounds p h0 h1
    · exact probDown_bounds p h0 h1

/-- Bounds propagate along any sequence of adaptive decodes. -/
theorem probUpdateSeq_bounds (ops : List (RC × Bool)) :
    ∀ p : Nat, 0 < p → p < 0x800 →
      0 < probUpdateSeq ops p ∧ probUpdateSeq ops p < 0x800 := by
  induction ops with
  | nil => intro p h0 h1; exact ⟨h0, h1⟩
  | cons op t ih =>
    intro p h0 h1
    have hstep := decodeBit_prob_bounds op.1 p op.2 h0 h1
    exact ih _ hstep.1 hstep.2

/-- C7: every probability cell is initialized to 0x400 by `reset` (all
arrays, both bit-tree banks and both length decoders), and under every
sequence of adaptive `decode_bit` updates a cell stays strictly between 0
and 0x800 — an 11-bit value, so `p += (0x800 - p) >> 5` and `p -= p >> 5`
can neither overflow nor underflow the 16-bit cell. -/
theorem probability_cells_stay_11bit :
    (∀ s : DecoderState,
      (resetState s).isMatch = List.replicate 192 0x400 ∧
      (resetState s).isRep = List.replicate 12 0x400 ∧
      (resetState s).isRepG0 = List.replicate 12 0x400 ∧
      (resetState s).isRepG1 = List.replicate 12 0x400 ∧
      (resetState s).isRepG2 = List.replicate 12 0x400 ∧
      (resetState s).isRep0long = List.replicate 192 0x400 ∧
      (resetState s).posDecoders = List.replicate 115 0x400 ∧
      (resetState s).alignDecoder = List.replicate 16 0x400 ∧
      (resetState s).posSlotDecoder = List.replicate 4 (List.replicate 64 0x400) ∧
      (resetState s).literalProbs
        = List.replicate s.probsMemLimit (List.replicate 0x300 0x400) ∧
      (resetState s).lenDecoder = LenDecoder.init ∧
      (resetState s).repLenDecoder = LenDecoder.init) ∧
    (∀ ops : List (RC × Bool),
      0 < probUpdateSeq ops 0x400 ∧ probUpdateSeq ops 0x400 < 0x800) :=
  ⟨fun _ => ⟨rfl, rfl, rfl, rfl, rfl, rfl, rfl, rfl, rfl, rfl, rfl, rfl⟩,
   fun ops => probUpdateSeq_bounds ops 0x400 (by decide) (by decide)⟩

/-- C8: `set_params` fails with the distinct error
`ProbabilitiesBufferTooSmall{needed, available}` whenever `1 << (lc + lp)`
exceeds `PROBS_MEM_LIMIT`, and then the whole decoder state — in
particular the params and the output window's dictionary size — is left
untouched. -/
theorem setParams_rejects_large_lclp (s : DecoderState) (p : LzmaParams)
    (hinit : ¬ s.processingStatus = .Uninitialized)
    (hcap : s.probsMemLimit < 1 <<< (p.lc + p.lp)) :
    setParams s p
      = (.error (.probabilitiesBufferTooSmall (1 <<< (p.lc + p.lp)) s.probsMemLimit), s) := by
  unfold setParams
  rw [if_neg hinit, if_pos hcap]

/-- Witness for C8: a reset decoder with literal-probability capacity 1
rejects `lc = 4, lp = 4` (needed `1 << 8 = 256`). -/
theorem setParams_rejects_large_lclp_witness :
    ¬ (resetState newState).processingStatus = .Uninitialized ∧
    (resetState newState).probsMemLimit < 1 <<< (4 + 4) ∧
    setParams (resetState newState)
        { lc := 4, lp := 4, pb := 0, dictSize := 0x1000, unpackedSize := none }
      = (.error (.probabilitiesBufferTooSmall (1 <<< (4 + 4)) (resetState newState).probsMemLimit),
         resetState newState) :=
  ⟨by decide, by decide,
   setParams_rejects_large_lclp (resetState newState)
     { lc := 4, lp := 4, pb := 0, dictSize := 0x1000, unpackedSize := none }
     (by decide) (by decide)⟩

/-- The forward tree walk leaves the probability array unchanged when
`update` is false. -/
theorem parseBitTreeAux_noupdate (n : Nat) :
    ∀ (rc : RC) (tmp : Nat) (probs : List Nat),
      (parseBitTreeAux n rc tmp probs false).2.2 = probs := by
  induction n with
  | zero => intro rc tmp probs; rfl
  | succ m ih =>
    intro rc tmp probs
    unfold parseBitTreeAux
    dsimp only
    rw [decodeBit_prob_noupdate, set_getD_self]
    split
    · rfl
    · exact ih _ _ _

/-- `parse_bit_tree` leaves the probability array unchanged when `update`
is false. -/
theorem parseBitTree_noupdate (rc : RC) (n : Nat) (probs : List Nat) :
    (parseBitTree rc n probs false).2.2 = probs :=
  parseBitTreeAux_noupdate n rc 1 probs

/-- The reverse tree walk leaves the probability array unchanged when
`update` is false. -/
theorem parseReverseBitTreeAux_noupdate (n : Nat) :
    ∀ (i : Nat) (rc : RC) (tmp result : Nat) (probs : List Nat) (offset : Nat),
      (parseReverseBitTreeAux n i rc tmp result probs offset false).2.2 = probs := by
  induction n with
  | zero => intro i rc tmp result probs offset; rfl
  | succ m ih =>
    intro i rc tmp result probs offset
    unfold parseReverseBitTreeAux
    dsimp only
    rw [decodeBit_prob_noupdate, set_getD_self]
    split
    · rfl
    · exact ih _ _ _ _ _ _

/-- `parse_reverse_bit_tree` leaves the probability array unchanged when
`update` is false. -/
theorem parseReverseBitTree_noupdate (rc : RC) (n : Nat) (probs : List Nat) (offset : Nat) :
    (parseReverseBitTree rc n probs offset false).2.2 = probs :=
  parseReverseBitTreeAux_noupdate n 0 rc 1 0 probs offset

/-- The length decoder is unchanged by a no-update decode. -/
theorem lenDecode_noupdate (ld : LenDecoder) (rc : RC) (posState : Nat) :
    (ld.decode rc posState false).2.2 = ld := by
  unfold LenDecoder.decode
  dsimp only
  rw [decodeBit_prob_noupdate]
  split
  · rfl
  · rw [parseBitTree_noupdate, set_getD_self]
  · rw [decodeBit_prob_noupdate]
    split
    · rfl
    · rw [parseBitTree_noupdate, set_getD_self]
    · rw [parseBitTree_noupdate]

/-- The matched-literal loop leaves the probability row unchanged when
`update` is false. -/
theorem literalMatchedLoop_noupdate (fuel : Nat) :
    ∀ (rc : RC) (probs : List Nat) (matchByte result : Nat),
      (literalMatchedLoop fuel rc probs matchByte result false).2.2 = probs := by
  induction fuel with
  | zero => intro rc probs matchByte result; rfl
  | succ m ih =>
    intro rc probs matchByte result
    unfold literalMatchedLoop
    dsimp only
    split
    · rw [decodeBit_prob_noupdate, set_getD_self]
      split
      · rfl
      · split <;> split <;> first | rfl | exact ih _ _ _ _
    · rfl

/-- The plain literal loop leaves the probability row unchanged when
`update` is false. -/
theorem literalPlainLoop_noupdate (fuel : Nat) :
    ∀ (rc : RC) (probs : List Nat) (result : Nat),
      (literalPlainLoop fuel rc probs result false).2.2 = probs := by
  induction fuel with
  | zero => intro rc probs result; rfl
  | succ m ih =>
    intro rc probs result
    unfold literalPlainLoop
    dsimp only
    split
    · rw [decodeBit_prob_noupdate, set_getD_self]
      split
      · rfl
      · exact ih _ _ _
    · rfl

/-- `decode_literal` leaves the decoder state unchanged when `update` is
false. -/
theorem decodeLiteral_noupdate (s : DecoderState) (rc : RC) :
    (decodeLiteral s rc false).2.1 = s := by
  unfold decodeLiteral
  split
  · rfl
  · dsimp only
    split
    · split
      · rfl
      · rw [literalMatchedLoop_noupdate]
        split
        · rw [set_getD_self]
        · rw [literalPlainLoop_noupdate, set_getD_self]
    · rw [literalPlainLoop_noupdate, set_getD_self]

/-- `decode_distance` leaves the decoder state unchanged when `update` is
false. -/
theorem decodeDistance_noupdate (s : DecoderState) (rc : RC) (length : Nat) :
    (decodeDistance s rc length false).2.1 = s := by
  unfold decodeDistance
  dsimp only
  rw [parseBitTree_noupdate, set_getD_self]
  split
  · rfl
  · split
    · rfl
    · split
      · rw [parseReverseBitTree_noupdate]
      · split
        · rfl
        · rw [parseReverseBitTree_noupdate]

/-- The rep-index selection leaves the decoder state unchanged when
`update` is false. -/
theorem repIdx_noupdate (s : DecoderState) (rc : RC) :
    (repIdx s rc false).2.1 = s := by
  unfold repIdx
  dsimp only
  rw [decodeBit_prob_noupdate, set_getD_self]
  split
  · rfl
  · rfl
  · rw [decodeBit_prob_noupdate, set_getD_self]
    split <;> rfl

/-- The common LZ tail leaves the decoder state unchanged when `update` is
false. -/
theorem lzTail_noupdate (s : DecoderState) (rc : RC) (len : Nat) :
    (lzTail s rc len false).2.1 = s := rfl

/-- The rep-match tail leaves the decoder state unchanged when `update` is
false. -/
theorem repMatchTail_noupdate (s : DecoderState) (rc : RC) (posState : Nat) :
    (repMatchTail s rc posState false).2.1 = s := by
  unfold repMatchTail
  dsimp only
  rw [lenDecode_noupdate]
  split
  · rfl
  · exact lzTail_noupdate _ _ _

/-- The new-distance finish leaves the decoder state unchanged when
`update` is false. -/
theorem newDistFinish_noupdate (s : DecoderState) (rc : RC) (rep0 len : Nat) :
    (newDistFinish s rc rep0 len false).2.1 = s := rfl

/-- `process_next_inner` leaves the decoder state unchanged when `update`
is false: the probability arrays, automaton state, rep LRU, output and
processing status all come back untouched, whether the step succeeds or
fails. -/
theorem processNextInner_noupdate (s : DecoderState) (rc : RC) :
    (processNextInner s rc false).2.1 = s := by
  unfold processNextInner
  split
  · rfl
  · dsimp only
    simp only [Bool.false_eq_true, if_false]
    rw [decodeBit_prob_noupdate, set_getD_self]
    split
    · rfl
    · -- literal
      split
      · rw [decodeLiteral_noupdate]
      · rw [decodeLiteral_noupdate]
    · -- LZ
      rw [decodeBit_prob_noupdate, set_getD_self]
      split
      · rfl
      · -- rep branch
        rw [decodeBit_prob_noupdate, set_getD_self]
        split
        · rfl
        · -- is_rep_g0 = 0
          rw [decodeBit_prob_noupdate, set_getD_self]
          split
          · rfl
          · rfl
          · exact repMatchTail_noupdate _ _ _
        · -- rep-i
          split
          · rw [repIdx_noupdate]
          · rw [repMatchTail_noupdate, repIdx_noupdate]
      · -- new distance
        rw [lenDecode_noupdate]
        split
        · rfl
        · split
          · rw [decodeDistance_noupdate]
          · rw [newDistFinish_noupdate, decodeDistance_noupdate]

/-- C5: a speculative step (`update = false`) leaves every piece of
decoder-visible state unchanged — probability cells, automaton state, rep
LRU, output window, processing status — both for the raw
`process_next_inner` dry-run (even when it fails part-way) and for
`try_process_next`, which in addition never touches the live range decoder
(it builds a temporary one from copies of `range` / `code`).  Hence a
packet is never partially applied: a step either commits in full
(`update = true`) or leaves the state exactly as before. -/
theorem speculative_step_is_pure :
    (∀ (s : DecoderState) (rc : RC), (processNextInner s rc false).2.1 = s) ∧
    (∀ (s : DecoderState) (buf : List Nat) (range code : Nat),
      (tryProcessNext s buf range code).2 = s) :=
  ⟨fun s rc => processNextInner_noupdate s rc,
   fun s buf range code => processNextInner_noupdate s ⟨buf, range, code⟩⟩

/-- `decode_literal` never changes the automaton state field. -/
theorem decodeLiteral_state (s : DecoderState) (rc : RC) (u : Bool) :
    (decodeLiteral s rc u).2.1.state = s.state := by
  unfold decodeLiteral
  split
  · rfl
  · dsimp only
    split
    · split
      · rfl
      · split <;> rfl
    · rfl

/-- `decode_distance` never changes the automaton state field. -/
theorem decodeDistance_state (s : DecoderState) (rc : RC) (length : Nat) (u : Bool) :
    (decodeDistance s rc length u).2.1.state = s.state := by
  unfold decodeDistance
  dsimp only
  split
  · rfl
  · split
    · rfl
    · split
      · rfl
      · split <;> rfl

/-- The rep-index selection never changes the automaton state field. -/
theorem repIdx_state (s : DecoderState) (rc : RC) (u : Bool) :
    (repIdx s rc u).2.1.state = s.state := by
  unfold repIdx
  dsimp only
  split
  · rfl
  · rfl
  · split <;> rfl

/-- The common LZ tail never changes the automaton state field. -/
theorem lzTail_state (s : DecoderState) (rc : RC) (len : Nat) (u : Bool) :
    (lzTail s rc len u).2.1.state = s.state := by
  unfold lzTail
  dsimp only
  split
  · split <;> rfl
  · rfl

/-- A committed rep-match (of either flavour) moves the automaton state to
8 below 7 and to 11 otherwise. -/
theorem repMatchTail_state_update (s : DecoderState) (rc : RC) (posState : Nat)
    (h : isErrB (repMatchTail s rc posState true).1 = false) :
    (repMatchTail s rc posState true).2.1.state = if s.state < 7 then 8 else 11 := by
  unfold repMatchTail at h ⊢
  simp only [eq_self_iff_true, if_true] at h ⊢
  dsimp only at h ⊢
  revert h
  split
  · intro h
    exact absurd h (by simp [isErrB])
  · intro _
    rw [lzTail_state]

/-- The new-distance finish never changes the automaton state field. -/
theorem newDistFinish_state (s : DecoderState) (rc : RC) (rep0 len : Nat) (u : Bool) :
    (newDistFinish s rc rep0 len u).2.1.state = s.state := by
  unfold newDistFinish
  dsimp only
  split
  · split
    · split <;> rfl
    · exact lzTail_state _ _ _ _
  · exact lzTail_state _ _ _ _

/-- C3: every successfully decoded packet is exactly one of literal,
short-rep, rep-match (rep-0 long or rep-i) or new-distance match — the
classifier derived from the `is_match` / `is_rep` / `is_rep_g0` /
`is_rep_0long` dispatch bits returns exactly one kind — and the automaton
state moves exactly by the tabulated transition: literal sends `state < 4`
to 0, `state < 10` to `state - 3`, else `state - 6`; short rep to 9 / 11,
rep-match to 8 / 11 and new match to 7 / 10 according to `state < 7`. -/
theorem packet_kind_unique_and_state_table (s : DecoderState) (rc : RC)
    (h : isErrB (processNextInner s rc true).1 = false) :
    ∃ k, classifyPacket s rc = some k ∧
      (processNextInner s rc true).2.1.state = stateTransitionTable k s.state := by
  unfold processNextInner at h ⊢
  unfold classifyPacket
  rcases hp : s.params with _ | params
  · rw [hp] at h
    simp [isErrB] at h
  · rw [hp] at h
    dsimp only at h ⊢
    simp only [eq_self_iff_true, if_true] at h ⊢
    -- level 1: is_match bit
    split at h
    · simp [isErrB] at h
    · -- literal packet
      refine ⟨.literal, rfl, ?_⟩
      split at h
      · simp [isErrB] at h
      · dsimp only
        rw [decodeLiteral_state]
        rfl
    · -- level 2: is_rep bit
      split at h
      · simp [isErrB] at h
      · rename_i hq2
        -- level 3: is_rep_g0 bit
        split at h
        · simp [isErrB] at h
        · rename_i hq3
          -- level 4: is_rep_0long bit
          split at h
          · simp [isErrB] at h
          · -- short-rep packet
            simp only [hq2, hq3]
            refine ⟨.shortRep, rfl, ?_⟩
            split at h
            · simp [isErrB] at h
            · dsimp only
              rfl
          · -- rep-0 long match
            simp only [hq2, hq3]
            refine ⟨.repMatch, rfl, ?_⟩
            rw [repMatchTail_state_update _ _ _ h]
            rfl
        · rename_i hq3
          -- rep-i match
          split at h
          · simp [isErrB] at h
          · simp only [hq2, hq3]
            refine ⟨.repMatch, rfl, ?_⟩
            rw [repMatchTail_state_update _ _ _ h]
            dsimp only
            rw [repIdx_state]
            rfl
      · rename_i hq2
        -- new-distance packet
        simp only [hq2]
        refine ⟨.newMatch, rfl, ?_⟩
        split at h
        · simp [isErrB] at h
        · split at h
          · simp [isErrB] at h
          · rw [newDistFinish_state, decodeDistance_state]
            rfl

/-- Witness for C3: on a fresh decoder with twenty zero input bytes and
`code = 0` the step succeeds (a literal packet), is classified, and the
state moves by the table. -/
theorem packet_kind_unique_and_state_table_witness :
    ∃ k, classifyPacket sampleState sampleRc = some k ∧
      (processNextInner sampleState sampleRc true).2.1.state
        = stateTransitionTable k sampleState.state :=
  packet_kind_unique_and_state_table sampleState sampleRc (by decide)

/-- C4: when a new-distance packet decodes the distance 0xFFFFFFFF (the
end-of-stream marker) with `update = true`, the decoder stores the
sentinel in `rep[0]` and transitions to `Finished` if and only if the
range decoder is finished-ok (`code == 0` and no more input); otherwise
the step fails with `EosFoundButMoreBytesAvailable`.  `newDistFinish` is
exactly the tail of `process_next_inner`'s new-distance branch, entered
with the result of `decode_distance`. -/
theorem eos_marker_finished_iff_ok (s : DecoderState) (rc : RC) (rep0 len : Nat)
    (hrep : rep0 = 0xFFFFFFFF) (hne : s.rep ≠ []) :
    newDistFinish s rc rep0 len true =
      if isFinishedOk rc then
        (.ok .Finished, { s with rep := s.rep.set 0 rep0, processingStatus := .Finished }, rc)
      else
        (.error .eosFoundButMoreBytesAvailable, { s with rep := s.rep.set 0 rep0 }, rc) := by
  subst hrep
  unfold newDistFinish
  simp only [eq_self_iff_true, if_true]
  have hget : (s.rep.set 0 0xFFFFFFFF).getD 0 0 = 0xFFFFFFFF := by
    cases hrep2 : s.rep with
    | nil => exact absurd hrep2 hne
    | cons a t => rfl
  rw [hget]
  simp only [eq_self_iff_true, if_true]

/-- Witness for C4: a finished-ok range decoder at the EOS marker makes
the sample decoder `Finished`. -/
theorem eos_marker_finished_iff_ok_witness :
    (0xFFFFFFFF : Nat) = 0xFFFFFFFF ∧ sampleState.rep ≠ [] ∧
    newDistFinish sampleState sampleRcDone 0xFFFFFFFF 3 true =
      if isFinishedOk sampleRcDone then
        (.ok .Finished,
         { sampleState with rep := sampleState.rep.set 0 0xFFFFFFFF,
                            processingStatus := .Finished }, sampleRcDone)
      else
        (.error .eosFoundButMoreBytesAvailable,
         { sampleState with rep := sampleState.rep.set 0 0xFFFFFFFF }, sampleRcDone) :=
  ⟨rfl, by decide, eos_marker_finished_iff_ok sampleState sampleRcDone 0xFFFFFFFF 3 rfl (by decide)⟩

/-- Mapping the payload leaves the error status of an `Except` alone. -/
theorem isErrB_map {ε α β : Type} (e : Except ε α) (f : α → β) :
    isErrB (e.map f) = isErrB e := by
  cases e <;> rfl

/-- A successful normalization starting at `range ≥ 0x10000` ends at
`range ≥ 0x1000000`. -/
theorem normalize_range_ge (rc : RC) (h16 : 0x10000 ≤ rc.range)
    (hok : isErrB (normalize rc).1 = false) : 0x1000000 ≤ (normalize rc).2.range := by
  unfold normalize at hok ⊢
  by_cases hlt : rc.range < 0x1000000
  · rw [if_pos hlt] at hok ⊢
    unfold readU8 at hok ⊢
    dsimp only at hok ⊢
    cases hs : rc.stream with
    | nil =>
      rw [hs] at hok
      simp [isErrB] at hok
    | cons b rest =>
      dsimp only
      have hsh : (rc.range <<< 8) % 4294967296 = rc.range <<< 8 := by
        apply Nat.mod_eq_of_lt
        rw [Nat.shiftLeft_eq]
        omega
      rw [hsh, Nat.shiftLeft_eq]
      omega
  · rw [if_neg hlt]
    dsimp only
    omega

/-- The slot count register `range >>> 11` of a 32-bit `range ≥ 2^24` lies
between 2^13 and 2^21. -/
theorem range_shift11_bounds (r : Nat) (h1 : 0x1000000 ≤ r) (h2 : r < 4294967296) :
    8192 ≤ r >>> 11 ∧ r >>> 11 < 2097152 := by
  rw [Nat.shiftRight_eq_div_pow]
  constructor
  · exact Nat.le_div_iff_mul_le (by omega) |>.2 (by omega)
  · exact Nat.div_lt_iff_lt_mul (by omega) |>.2 (by omega)

/-- One successful adaptive `decode_bit` against a reachable probability
cell (`31 ≤ p ≤ 2017`) keeps `range ≥ 0x1000000`. -/
theorem decodeBit_range_inv (rc : RC) (p : Nat) (u : Bool)
    (hr : 0x1000000 ≤ rc.range) (hr2 : rc.range < 4294967296)
    (hp1 : 31 ≤ p) (hp2 : p ≤ 2017)
    (hok : isErrB (decodeBit rc p u).1 = false) :
    0x1000000 ≤ (decodeBit rc p u).2.1.range := by
  obtain ⟨hq1, hq2⟩ := range_shift11_bounds rc.range hr hr2
  have hb : ((rc.range >>> 11) * p) % 4294967296 = (rc.range >>> 11) * p := by
    apply Nat.mod_eq_of_lt
    have := Nat.mul_le_mul (Nat.le_of_lt hq2) hp2
    omega
  unfold decodeBit at hok ⊢
  dsimp only at hok ⊢
  rw [hb] at hok ⊢
  by_cases hc : rc.code < rc.range >>> 11 * p
  · rw [if_pos hc] at hok ⊢
    dsimp only at hok ⊢
    rw [isErrB_map] at hok
    apply normalize_range_ge _ _ hok
    have := Nat.mul_le_mul hq1 hp1
    dsimp only
    omega
  · rw [if_neg hc] at hok ⊢
    dsimp only at hok ⊢
    rw [isErrB_map] at hok
    apply normalize_range_ge _ _ hok
    dsimp only
    have hA : rc.range >>> 11 * 2048 ≤ rc.range := by
      rw [Nat.shiftRight_eq_div_pow]
      exact Nat.div_mul_le_self rc.range 2048
    have hB : rc.range >>> 11 * p ≤ rc.range >>> 11 * 2017 :=
      Nat.mul_le_mul_left _ hp2
    have hC : rc.range >>> 11 * 2017 + rc.range >>> 11 * 31 = rc.range >>> 11 * 2048 := by
      ring
    have hD : 8192 * 31 ≤ rc.range >>> 11 * 31 := Nat.mul_le_mul_right _ hq1
    omega

/-- One successful direct `get_bit` from `range ≥ 0x1000000` keeps
`range ≥ 0x1000000`. -/
theorem getBit_range_inv (rc : RC) (hr : 0x1000000 ≤ rc.range)
    (hok : isErrB (getBit rc).1 = false) : 0x1000000 ≤ (getBit rc).2.range := by
  unfold getBit at hok ⊢
  dsimp only at hok ⊢
  rw [isErrB_map] at hok
  by_cases hb : rc.range >>> 1 ≤ rc.code
  · rw [if_pos hb] at hok ⊢
    apply normalize_range_ge _ _ hok
    dsimp only
    rw [Nat.shiftRight_eq_div_pow]
    omega
  · rw [if_neg hb] at hok ⊢
    apply normalize_range_ge _ _ hok
    dsimp only
    rw [Nat.shiftRight_eq_div_pow]
    omega

/-- The adaptive increment keeps a cell within the reachable band
`[31, 2017]`. -/
theorem probUp_31_2017 (p : Nat) (h0 : 31 ≤ p) (h1 : p ≤ 2017) :
    31 ≤ p + ((0x800 - p) >>> 5) ∧ p + ((0x800 - p) >>> 5) ≤ 2017 := by
  rw [Nat.shiftRight_eq_div_pow]
  have hdm : (0x800 - p) / 2 ^ 5 * 2 ^ 5 ≤ 0x800 - p := Nat.div_mul_le_self _ _
  omega

/-- The adaptive decrement keeps a cell within the reachable band
`[31, 2017]`. -/
theorem probDown_31_2017 (p : Nat) (h0 : 31 ≤ p) (h1 : p ≤ 2017) :
    31 ≤ p - (p >>> 5) ∧ p - (p >>> 5) ≤ 2017 := by
  rw [Nat.shiftRight_eq_div_pow]
  have hdm : p / 2 ^ 5 * 2 ^ 5 ≤ p := Nat.div_mul_le_self _ _
  omega

/-- One `decode_bit` keeps a cell within the reachable band `[31, 2017]`. -/
theorem decodeBit_prob_31_2017 (rc : RC) (p : Nat) (u : Bool)
    (h0 : 31 ≤ p) (h1 : p ≤ 2017) :
    31 ≤ (decodeBit rc p u).2.2 ∧ (decodeBit rc p u).2.2 ≤ 2017 := by
  cases u with
  | false => rw [decodeBit_prob_noupdate]; exact ⟨h0, h1⟩
  | true =>
    unfold decodeBit
    dsimp only
    split
    · exact probUp_31_2017 p h0 h1
    · exact probDown_31_2017 p h0 h1

/-- Every reachable probability cell lies in `[31, 2017]`. -/
theorem probUpdateSeq_31_2017 (ops : List (RC × Bool)) :
    ∀ p : Nat, 31 ≤ p → p ≤ 2017 →
      31 ≤ probUpdateSeq ops p ∧ probUpdateSeq ops p ≤ 2017 := by
  induction ops with
  | nil => intro p h0 h1; exact ⟨h0, h1⟩
  | cons op t ih =>
    intro p h0 h1
    have hstep := decodeBit_prob_31_2017 op.1 p op.2 h0 h1
    exact ih _ hstep.1 hstep.2

/-- C6: the range-decoder normalization post-condition.  Normalization
shifts `range` and `code` left by 8 and reads one byte into the low byte
of `code` exactly when `range < 0x1000000` (failing when no byte is
available, leaving `range` alone otherwise); every probability cell
reachable from the reset value 0x400 stays within `[31, 2017]`; and under
that band each successful consuming operation — adaptive `decode_bit`
and direct `get_bit`, each followed by its normalization — re-establishes
`range ≥ 0x1000000`.  Packets are sequences of such operations, so the
invariant holds after every successfully decoded packet. -/
theorem range_invariant_after_normalization :
    (∀ rc : RC, rc.range < 0x1000000 →
      (∀ b rest, rc.stream = b :: rest →
        normalize rc = (.ok (),
          { stream := rest, range := (rc.range <<< 8) % 4294967296,
            code := ((rc.code <<< 8) % 4294967296) ^^^ b })) ∧
      (rc.stream = [] → (normalize rc).1 = .error .eof)) ∧
    (∀ rc : RC, ¬ rc.range < 0x1000000 → normalize rc = (.ok (), rc)) ∧
    (∀ ops : List (RC × Bool),
      31 ≤ probUpdateSeq ops 0x400 ∧ probUpdateSeq ops 0x400 ≤ 2017) ∧
    (∀ (rc : RC) (p : Nat) (u : Bool),
      0x1000000 ≤ rc.range → rc.range < 4294967296 → 31 ≤ p → p ≤ 2017 →
      isErrB (decodeBit rc p u).1 = false →
      0x1000000 ≤ (decodeBit rc p u).2.1.range) ∧
    (∀ rc : RC, 0x1000000 ≤ rc.range → isErrB (getBit rc).1 = false →
      0x1000000 ≤ (getBit rc).2.range) := by
  refine ⟨?_, ?_, ?_, decodeBit_range_inv, getBit_range_inv⟩
  · intro rc hlt
    constructor
    · intro b rest hs
      unfold normalize readU8
      rw [if_pos hlt, hs]
    · intro hs
      unfold normalize readU8
      rw [if_pos hlt, hs]
  · intro rc hge
    unfold normalize
    rw [if_neg hge]
  · intro ops
    exact probUpdateSeq_31_2017 ops 0x400 (by decide) (by decide)

/-- Witness for C6: concrete instances of each conditional part — a
normalization read at `range = 0x8000`, the identity case at
`range = 0x2000000`, a `decode_bit` and a `get_bit` at concrete registers
re-establishing the invariant. -/
theorem range_invariant_after_normalization_witness :
    normalize { stream := [7], range := 0x8000, code := 1 }
      = (.ok (), { stream := [], range := 0x800000, code := 256 ^^^ 7 }) ∧
    normalize sampleRcDone = (.ok (), sampleRcDone) ∧
    0x1000000 ≤ (decodeBit { stream := [5], range := 0x1000000, code := 0 } 0x400 true).2.1.range ∧
    0x1000000 ≤ (getBit { stream := [9], range := 0x1000000, code := 0 }).2.range := by
  refine ⟨?_, ?_, ?_, ?_⟩
  · exact (range_invariant_after_normalization.1
      { stream := [7], range := 0x8000, code := 1 } (by decide)).1 7 [] rfl
  · exact range_invariant_after_normalization.2.1 sampleRcDone (by decide)
  · exact range_invariant_after_normalization.2.2.2.1
      { stream := [5], range := 0x1000000, code := 0 } 0x400 true
      (by decide) (by decide) (by decide) (by decide) (by decide)
  · exact range_invariant_after_normalization.2.2.2.2
      { stream := [9], range := 0x1000000, code := 0 } (by decide) (by decide)

/-- Normalization never hits end-of-input while the stream has a byte. -/
theorem normalize_ok_of_stream_ne (rc : RC) (hs : rc.stream ≠ []) :
    isErrB (normalize rc).1 = false := by
  unfold normalize
  by_cases hlt : rc.range < 0x1000000
  · rw [if_pos hlt]
    unfold readU8
    dsimp only
    rcases hsx : rc.stream with _ | ⟨b, t⟩
    · exact absurd hsx hs
    · rfl
  · rw [if_neg hlt]
    rfl

/-- With `code = 0` and a positive bound, `decode_bit` yields bit 0 as long
as one byte remains for a possible renormalization read. -/
theorem decodeBit_zero_code (rc : RC) (p : Nat) (u : Bool)
    (hcode : rc.code = 0) (hpos : 0 < ((rc.range >>> 11) * p) % 4294967296)
    (hs : rc.stream ≠ []) :
    (decodeBit rc p u).1 = .ok false := by
  unfold decodeBit
  rw [if_pos (by rw [hcode]; exact hpos)]
  dsimp only
  have hn := normalize_ok_of_stream_ne { rc with range := ((rc.range >>> 11) * p) % 4294967296 } hs
  cases hE : (normalize { rc with range := ((rc.range >>> 11) * p) % 4294967296 }).1 with
  | error e => rw [hE] at hn; simp [isErrB] at hn
  | ok v => rfl

/-- After the EOS marker `rep[0]` holds the sentinel, so a matched-literal
decode (`state ≥ 7`) fails immediately: the look-up of the byte
`0xFFFFFFFF + 1` back is outside any 32-bit dictionary. -/
theorem decodeLiteral_sentinel_errors (params : LzmaParams) (s : DecoderState) (rc : RC)
    (u : Bool) (hparams : s.params = some params) (hstate : 7 ≤ s.state)
    (hrep : s.rep.getD 0 0 = 0xFFFFFFFF) (hdict : s.output.dictSize < 4294967296) :
    (decodeLiteral s rc u).1 = .error .invalidBackReference := by
  have hl : s.output.lastN (s.rep.getD 0 0 + 1) = .error .invalidBackReference := by
    unfold OutWindow.lastN
    rw [hrep]
    rw [if_pos (Or.inr (Or.inr (by omega)))]
  unfold decodeLiteral
  rw [hparams]
  dsimp only
  rw [if_pos hstate, hl]

/-- A packet step taken after the EOS marker, with the continuation
registers (`code = 0`, normalized `range`) and at least one more input
byte, fails with `InvalidBackReference`. -/
theorem processNextInner_after_finished_errors (params : LzmaParams) (s : DecoderState)
    (rc : RC) (hparams : s.params = some params) (hstate : 7 ≤ s.state)
    (hrep : s.rep.getD 0 0 = 0xFFFFFFFF) (hdict : s.output.dictSize < 4294967296)
    (hcode : rc.code = 0) (hr1 : 0x1000000 ≤ rc.range) (hr2 : rc.range < 4294967296)
    (hstream : rc.stream ≠ [])
    (hp1 : 0 < s.isMatch.getD ((s.state <<< 4) + (s.output.len &&& ((1 <<< params.pb) - 1))) 0)
    (hp2 : s.isMatch.getD ((s.state <<< 4) + (s.output.len &&& ((1 <<< params.pb) - 1))) 0 < 0x800) :
    (processNextInner s rc true).1 = .error .invalidBackReference := by
  obtain ⟨hq1, hq2⟩ := range_shift11_bounds rc.range hr1 hr2
  have hpos : 0 < ((rc.range >>> 11) *
      s.isMatch.getD ((s.state <<< 4) + (s.output.len &&& ((1 <<< params.pb) - 1))) 0)
        % 4294967296 := by
    have ha : rc.range >>> 11 ≤ 2097151 := by omega
    have hb : s.isMatch.getD ((s.state <<< 4) + (s.output.len &&& ((1 <<< params.pb) - 1))) 0
        ≤ 2047 := by omega
    have hc := Nat.mul_le_mul ha hb
    rw [Nat.mod_eq_of_lt (by omega)]
    exact Nat.mul_pos (by omega) hp1
  have hd1 := decodeBit_zero_code rc
    (s.isMatch.getD ((s.state <<< 4) + (s.output.len &&& ((1 <<< params.pb) - 1))) 0)
    true hcode hpos hstream
  unfold processNextInner
  rw [hparams]
  dsimp only
  rw [hd1]
  dsimp only
  rw [decodeLiteral_sentinel_errors params _ _ _ _ _ _ _]
  · rfl
  · exact hstate
  · exact hrep
  · exact hdict

/-- Counterexample for C9: the claim says any further decode call supplied
with additional input is an error, but a Partial-mode (`process_stream`)
call on a `Finished` decoder with three additional bytes returns
normally — the dry-run failure merely stashes the bytes in the residual
buffer. -/
theorem finished_partial_call_returns_ok :
    sampleFinishedState.processingStatus = .Finished ∧
    sampleRcExtra.stream ≠ [] ∧
    (processMode 4 sampleFinishedState sampleRcExtra .Partial).1 = .ok () :=
  ⟨rfl, by decide, rfl⟩

/-- C9 (amended): the `Finished` processing status is terminal in Finish
mode — for every decoder left by the EOS marker in the `Finished` state
(automaton state ≥ 7, sentinel in `rep[0]`, `code = 0`, normalized
`range`, empty residual buffer, 32-bit dictionary, reachable `is_match`
cell, unpacked size unknown or not yet reached), a further
`process`/Finish call supplied with additional input fails (with
`InvalidBackReference`, the first packet being forced into a matched
literal against the sentinel distance); in Partial mode the error can
instead be deferred and the call returns normally. -/
theorem finished_then_finish_mode_errors (params : LzmaParams) (s : DecoderState) (rc : RC)
    (fuel : Nat)
    (hstat : s.processingStatus = .Finished)
    (hparams : s.params = some params)
    (hresid : s.residualInput = [])
    (hstate : 7 ≤ s.state)
    (hrep : s.rep.getD 0 0 = 0xFFFFFFFF)
    (hdict : s.output.dictSize < 4294967296)
    (hcode : rc.code = 0)
    (hr1 : 0x1000000 ≤ rc.range) (hr2 : rc.range < 4294967296)
    (hstream : rc.stream ≠ [])
    (hp1 : 0 < s.isMatch.getD ((s.state <<< 4) + (s.output.len &&& ((1 <<< params.pb) - 1))) 0)
    (hp2 : s.isMatch.getD ((s.state <<< 4) + (s.output.len &&& ((1 <<< params.pb) - 1))) 0 < 0x800)
    (hsize : ∀ u, params.unpackedSize = some u → s.output.len < u) :
    (processMode (fuel + 1) s rc .Finish).1 = .error .invalidBackReference := by
  have hni : ¬ s.processingStatus = .Uninitialized := by
    rw [hstat]
    intro hh
    cases hh
  have hie : rc.stream.isEmpty = false := by
    cases hsx : rc.stream with
    | nil => exact absurd hsx hstream
    | cons b t => rfl
  unfold processMode
  rw [if_neg hni, hparams]
  dsimp only
  unfold processModeGo
  dsimp only
  have hstop : stopCond params .Finish s rc = false := by
    unfold stopCond
    rcases hu : params.unpackedSize with _ | u
    · simp only [isFinishedOk, isEof, hie, Bool.and_false, Bool.false_and]
    · exact decide_eq_false (by have := hsize u hu; omega)
  rw [hstop]
  simp only [Bool.false_eq_true, if_false]
  rw [hresid]
  rw [if_neg (by simp)]
  rw [if_neg (fun hand => ProcessingMode.noConfusion hand.1)]
  rw [processNextInner_after_finished_errors params s rc hparams hstate hrep hdict hcode
    hr1 hr2 hstream hp1 hp2]

/-- Witness for the amended C9: the concrete `Finished` decoder with three
extra input bytes fails a Finish-mode call. -/
theorem finished_then_finish_mode_errors_witness :
    sampleFinishedState.processingStatus = .Finished ∧
    sampleRcExtra.stream ≠ [] ∧
    (processMode (0 + 1) sampleFinishedState sampleRcExtra .Finish).1
      = .error .invalidBackReference :=
  ⟨rfl, by decide,
   finished_then_finish_mode_errors
     { lc := 0, lp := 0, pb := 0, dictSize := 0x1000, unpackedSize := none }
     sampleFinishedState sampleRcExtra 0 rfl (by decide) rfl (by decide) (by decide)
     (by decide) rfl (by decide) (by decide) (by decide) (by decide) (by decide)
     (fun u h => Option.noConfusion h)⟩

/-- C10: in Partial mode, when fewer than `MAX_REQUIRED_INPUT` bytes are
available for a step, any error raised by the speculative dry-run — the
hypothesis is only that `try_process_next` failed, whatever the error —
makes the call return normally (`Ok`), with the available input retained
in the residual buffer for a later call.  The first conjunct covers the
residual-buffer path of `process_mode`, the second the direct path whose
dry-run failure copies the current chunk into the residual buffer. -/
theorem partial_mode_defers_dry_run_errors :
    (∀ (params : LzmaParams) (s : DecoderState) (rc : RC) (fuel : Nat),
      ¬ s.processingStatus = .Uninitialized →
      s.params = some params →
      (∀ u, params.unpackedSize = some u → s.output.len < u) →
      s.residualInput ≠ [] →
      (readResidual s rc).1.residualInput.length < MAX_REQUIRED_INPUT →
      isErrB (tryProcessNext (readResidual s rc).1 (readResidual s rc).1.residualInput
        (readResidual s rc).2.range (readResidual s rc).2.code).1 = true →
      processMode (fuel + 1) s rc .Partial =
        (.ok (),
         (tryProcessNext (readResidual s rc).1 (readResidual s rc).1.residualInput
           (readResidual s rc).2.range (readResidual s rc).2.code).2,
         (readResidual s rc).2) ∧
      (tryProcessNext (readResidual s rc).1 (readResidual s rc).1.residualInput
        (readResidual s rc).2.range (readResidual s rc).2.code).2.residualInput
          = s.residualInput ++ rc.stream.take (MAX_REQUIRED_INPUT - s.residualInput.length)) ∧
    (∀ (params : LzmaParams) (s : DecoderState) (rc : RC) (fuel : Nat),
      ¬ s.processingStatus = .Uninitialized →
      s.params = some params →
      (∀ u, params.unpackedSize = some u → s.output.len < u) →
      s.residualInput = [] →
      rc.stream ≠ [] →
      rc.stream.length < MAX_REQUIRED_INPUT →
      isErrB (tryProcessNext s rc.stream rc.range rc.code).1 = true →
      processMode (fuel + 1) s rc .Partial =
        (.ok (),
         (readResidual (tryProcessNext s rc.stream rc.range rc.code).2 rc).1,
         (readResidual (tryProcessNext s rc.stream rc.range rc.code).2 rc).2) ∧
      (readResidual (tryProcessNext s rc.stream rc.range rc.code).2 rc).1.residualInput
          = rc.stream) := by
  constructor
  · intro params s rc fuel hni hparams hsize hresid hlen herr
    constructor
    · have hie : s.residualInput.isEmpty = false := by
        cases hsr : s.residualInput with
        | nil => exact absurd hsr hresid
        | cons a t => rfl
      have hstop : stopCond params .Partial s rc = false := by
        unfold stopCond
        rcases hu : params.unpackedSize with _ | u
        · simp only [hie, Bool.and_false]
        · exact decide_eq_false (by have := hsize u hu; omega)
      unfold processMode
      rw [if_neg hni, hparams]
      dsimp only
      unfold processModeGo
      rw [hstop]
      simp only [Bool.false_eq_true, if_false]
      rw [if_pos (fun h0 => hresid (List.length_eq_zero.mp h0))]
      rw [if_pos (And.intro trivial hlen)]
      rw [herr]
      simp only [eq_self_iff_true, if_true]
    · unfold tryProcessNext
      dsimp only
      rw [processNextInner_noupdate]
      unfold readResidual
      rfl
  · intro params s rc fuel hni hparams hsize hresid hne hshort herr
    constructor
    · have hie : rc.stream.isEmpty = false := by
        cases hsx : rc.stream with
        | nil => exact absurd hsx hne
        | cons b t => rfl
      have hstop : stopCond params .Partial s rc = false := by
        unfold stopCond
        rcases hu : params.unpackedSize with _ | u
        · simp only [isEof, hie, Bool.false_and]
        · exact decide_eq_false (by have := hsize u hu; omega)
      unfold processMode
      rw [if_neg hni, hparams]
      dsimp only
      unfold processModeGo
      rw [hstop]
      simp only [Bool.false_eq_true, if_false]
      rw [hresid]
      rw [if_neg (by simp)]
      rw [if_pos (And.intro trivial hshort)]
      rw [herr]
      simp only [eq_self_iff_true, if_true]
    · unfold tryProcessNext
      dsimp only
      rw [processNextInner_noupdate]
      unfold readResidual
      dsimp only
      rw [hresid]
      rw [List.nil_append]
      simp only [List.length_nil, Nat.sub_zero]
      rw [List.take_of_length_le (Nat.le_of_lt hshort)]

/-- Witness for C10, covering both paths with a dry-run failure that is an
`InvalidBackReference` (not a would-read-past-end): a `Finished`-shaped
decoder whose matched-literal look-up fails, once with one residual byte
and two stream bytes, once with an empty residual buffer and three stream
bytes. -/
theorem partial_mode_defers_dry_run_errors_witness :
    (processMode 3 { sampleFinishedState with residualInput := [0] }
        { stream := [0, 0], range := 0xFFFFFFFF, code := 0 } .Partial =
      (.ok (),
       (tryProcessNext
         (readResidual { sampleFinishedState with residualInput := [0] }
           { stream := [0, 0], range := 0xFFFFFFFF, code := 0 }).1
         (readResidual { sampleFinishedState with residualInput := [0] }
           { stream := [0, 0], range := 0xFFFFFFFF, code := 0 }).1.residualInput
         (readResidual { sampleFinishedState with residualInput := [0] }
           { stream := [0, 0], range := 0xFFFFFFFF, code := 0 }).2.range
         (readResidual { sampleFinishedState with residualInput := [0] }
           { stream := [0, 0], range := 0xFFFFFFFF, code := 0 }).2.code).2,
       (readResidual { sampleFinishedState with residualInput := [0] }
         { stream := [0, 0], range := 0xFFFFFFFF, code := 0 }).2)) ∧
    (processMode 3 sampleFinishedState sampleRcExtra .Partial =
      (.ok (),
       (readResidual (tryProcessNext sampleFinishedState sampleRcExtra.stream
         sampleRcExtra.range sampleRcExtra.code).2 sampleRcExtra).1,
       (readResidual (tryProcessNext sampleFinishedState sampleRcExtra.stream
         sampleRcExtra.range sampleRcExtra.code).2 sampleRcExtra).2)) :=
  ⟨(partial_mode_defers_dry_run_errors.1
      { lc := 0, lp := 0, pb := 0, dictSize := 0x1000, unpackedSize := none }
      { sampleFinishedState with residualInput := [0] }
      { stream := [0, 0], range := 0xFFFFFFFF, code := 0 } 2
      (by decide) rfl (fun u h => Option.noConfusion h) (by decide) (by decide) (by decide)).1,
   (partial_mode_defers_dry_run_errors.2
      { lc := 0, lp := 0, pb := 0, dictSize := 0x1000, unpackedSize := none }
      sampleFinishedState sampleRcExtra 2
      (by decide) rfl (fun u h => Option.noConfusion h) rfl (by decide) (by decide) (by decide)).1⟩

end LzmaSpec
